import Mathlib

/-!
# Verification of the Lynx governance agent core

Shallow embedding of the governance core of the `lynx-governance-agentv2`
repository: vote schema validation (`vote.ts`, `parse_hcs2_vote.ts`),
round-state accumulation (`lynx-governance-agent.ts`), vote tallying
(`tally_vote.ts`) and the contract-update guard (`update_lynx_contract.ts`).

Modelling conventions, stated once here:
* JavaScript numbers are modelled as exact rationals (`ℚ`); IEEE-754 rounding
  is out of scope of this development.
* A JavaScript `Date` value is modelled by its millisecond epoch value as an
  integer (`ℤ`); `Date` comparisons (`<`, `>`) compare these numbers, exactly
  as in the source.
* JavaScript `Map` and plain-object dictionaries are modelled as association
  lists.  `Map.set` on an existing key replaces the value in place (keeping
  the original insertion position), matching ECMAScript `Map` semantics, and
  `Map.values()` iterates in that order.
* For a plain object, ECMAScript own-property enumeration (`Object.entries`)
  lists integer-like keys (canonical non-negative integers below `2^32 - 1`)
  in ascending numeric order first, then the remaining keys in insertion
  order; `jsEntries` below implements exactly this.
-/

/-- `ratioChanges` entry of a vote: `{ token: string, newRatio: number }`
(`MultiRatioVoteSchema` in `vote.ts`; the schema constrains
`newRatio` to `[0, 100]`). -/
structure RatioChange where
  token : String
  newRatio : ℚ
deriving DecidableEq, Repr

/-- A validated governance vote (`MultiRatioVote` in `vote.ts`).
`timestamp` is the coerced `Date`, modelled as epoch milliseconds. -/
structure Vote where
  voterAccountId : String
  votingPower : ℚ
  ratioChanges : List RatioChange
  timestamp : ℤ
  txId : Option String := none
  reason : Option String := none
deriving DecidableEq, Repr

/-- The mutable per-round state of `LynxGovernanceAgent`:
`collectedVotes` and `currentVotingPower`. -/
structure GovState where
  collectedVotes : List Vote
  currentVotingPower : ℚ
deriving DecidableEq, Repr

/-- Initial agent state: `collectedVotes = []`, `currentVotingPower = 0`. -/
def initialState : GovState := ⟨[], 0⟩

/-- `QUORUM_THRESHOLD = 1000` in `lynx-governance-agent.ts`. -/
def QUORUM_THRESHOLD : ℚ := 1000

/-- `this.collectedVotes[existingIndex] = vote`: replace the first stored vote
with the same `voterAccountId` (the one `findIndex` locates) by the new vote. -/
def replaceFirst : List Vote → Vote → List Vote
  | [], _ => []
  | v :: vs, nv =>
      if v.voterAccountId = nv.voterAccountId then nv :: vs
      else v :: replaceFirst vs nv

/-- The vote located by
`this.collectedVotes.findIndex(v => v.voterAccountId === vote.voterAccountId)`:
the first stored vote of the same voter. -/
def findByVoter : List Vote → String → Option Vote
  | [], _ => none
  | v :: vs, voter =>
      if v.voterAccountId = voter then some v else findByVoter vs voter

/-- `LynxGovernanceAgent.addVoteToState` (lines 323–336): if the voter already
has a stored vote, subtract its power, replace the stored vote, then add the
new power; otherwise push the vote and add its power. -/
def addVoteToState (st : GovState) (vote : Vote) : GovState :=
  match findByVoter st.collectedVotes vote.voterAccountId with
  | some oldVote =>
      { collectedVotes := replaceFirst st.collectedVotes vote
        currentVotingPower :=
          st.currentVotingPower - oldVote.votingPower + vote.votingPower }
  | none =>
      { collectedVotes := st.collectedVotes ++ [vote]
        currentVotingPower := st.currentVotingPower + vote.votingPower }

/-- Apply a whole incoming sequence of votes starting from the fresh state. -/
def applyVotes (votes : List Vote) : GovState :=
  votes.foldl addVoteToState initialState

/-- Recompute the total power of a vote list from scratch
(`reduce((sum, vote) => sum + vote.votingPower, 0)` style). -/
def sumPower (votes : List Vote) : ℚ :=
  votes.foldl (fun s v => s + v.votingPower) 0

/-- `LynxGovernanceAgent.resetGovernanceState`: clear the vote list and zero
the running power. -/
def resetGovernanceState (_st : GovState) : GovState := ⟨[], 0⟩

/-- The six winning ratios handed to `update_lynx_contract`
(`WINNING_RATIOS` shape extracted by `extractRatiosFromResult`). -/
structure WinningRatios where
  hbarRatio : ℚ
  wbtcRatio : ℚ
  sauceRatio : ℚ
  usdcRatio : ℚ
  jamRatio : ℚ
  headstartRatio : ℚ
deriving DecidableEq, Repr

/-- Outcome of one fallible external effect (an `agentExecutor.invoke` call or
the on-chain transaction behind it). -/
inductive StepOutcome where
  | ok
  | error
deriving DecidableEq, Repr

/-- `LynxGovernanceAgent.executeGovernanceFlow` (lines 338–358), restricted to
its effect on the round state.  `ratios` is the result of
`calculateWinningRatios` (`null` when extraction failed); `contractOutcome`
is the fate of the `updateContract` step.  In the source, `updateContract`
wraps its `invoke` in `try/catch` and swallows every error (lines 409–423),
so the flow proceeds to `resetGovernanceState()` whenever `ratios` is
non-null, regardless of whether the contract update succeeded. -/
def executeGovernanceFlow (st : GovState) (ratios : Option WinningRatios)
    (contractOutcome : StepOutcome) : GovState :=
  match ratios with
  | none => st
  | some _ =>
      let _ := contractOutcome
      resetGovernanceState st

/-- `LynxGovernanceAgent.processTopicMessage` (lines 241–272), restricted to
its effect on the round state.  `vote` is the result of `parseVoteMessage`
(`none` when parsing failed).  Returns the new state and whether the
settlement flow (`executeGovernanceFlow`) was invoked. -/
def processTopicMessage (st : GovState) (vote : Option Vote)
    (ratios : Option WinningRatios) (contractOutcome : StepOutcome) :
    GovState × Bool :=
  match vote with
  | none => (st, false)
  | some v =>
      let st1 := addVoteToState st v
      if QUORUM_THRESHOLD ≤ st1.currentVotingPower then
        (executeGovernanceFlow st1 ratios contractOutcome, true)
      else
        (st1, false)

/-! ## Tally engine (`tally_vote.ts`) -/

/-- `voterMap.get(id)`: lookup in the association-list model of a JS `Map`. -/
def mapGet : List (String × Vote) → String → Option Vote
  | [], _ => none
  | (k1, v1) :: rest, k => if k1 = k then some v1 else mapGet rest k

/-- `voterMap.set(id, vote)`: replace in place when the key exists (keeping
its insertion position), append otherwise. -/
def mapSet : List (String × Vote) → String → Vote → List (String × Vote)
  | [], k, v => [(k, v)]
  | (k1, v1) :: rest, k, v =>
      if k1 = k then (k, v) :: rest else (k1, v1) :: mapSet rest k v

/-- One iteration of the deduplication loop in `TallyVoteTool._call`
(lines 14–20): `if (!existing || vote.timestamp > existing.timestamp)
voterMap.set(vote.voterAccountId, vote)`. -/
def voterMapStep (m : List (String × Vote)) (vote : Vote) :
    List (String × Vote) :=
  match mapGet m vote.voterAccountId with
  | none => mapSet m vote.voterAccountId vote
  | some existing =>
      if existing.timestamp < vote.timestamp then
        mapSet m vote.voterAccountId vote
      else m

/-- The complete `voterMap` after the deduplication loop. -/
def buildVoterMap (votes : List Vote) : List (String × Vote) :=
  votes.foldl voterMapStep []

/-- `Array.from(voterMap.values())`: the deduplicated votes, in `Map`
iteration order. -/
def finalVotes (votes : List Vote) : List Vote :=
  (buildVoterMap votes).map Prod.snd

/-- `tokenTallies[token][ratio] += power` with `0` initialisation for a fresh
ratio key: bump one per-ratio bucket list. -/
def bump : List (ℚ × ℚ) → ℚ → ℚ → List (ℚ × ℚ)
  | [], r, p => [(r, p)]
  | (k, acc) :: rest, r, p =>
      if k = r then (k, acc + p) :: rest else (k, acc) :: bump rest r p

/-- Bump the bucket of one `(token, ratio)` pair inside the nested
`tokenTallies` dictionary (fresh token keys are appended, i.e. inserted in
first-mention order). -/
def bumpToken : List (String × List (ℚ × ℚ)) → String → ℚ → ℚ →
    List (String × List (ℚ × ℚ))
  | [], t, r, p => [(t, bump [] r p)]
  | (tk, b) :: rest, t, r, p =>
      if tk = t then (tk, bump b r p) :: rest
      else (tk, b) :: bumpToken rest t r p

/-- The `tokenTallies` accumulation loop of `TallyVoteTool._call`
(lines 26–37) over the deduplicated votes. -/
def tallyTokens (votes : List Vote) : List (String × List (ℚ × ℚ)) :=
  votes.foldl
    (fun acc vote =>
      vote.ratioChanges.foldl
        (fun acc2 rc => bumpToken acc2 rc.token rc.newRatio vote.votingPower)
        acc)
    []

/-- Lookup a token's bucket list in `tokenTallies`. -/
def lookupToken (m : List (String × List (ℚ × ℚ))) (t : String) :
    Option (List (ℚ × ℚ)) :=
  match m with
  | [] => none
  | (tk, b) :: rest => if tk = t then some b else lookupToken rest t

/-- Whether a bucket key (a JS number used as an object property) prints as
an ECMAScript array index: a canonical non-negative integer below
`2^32 - 1`. -/
def isArrayIndexKey (q : ℚ) : Bool :=
  q.den == 1 && decide (0 ≤ q.num) && decide (q.num < 4294967295)

/-- Insert one entry into a bucket list sorted by ascending key. -/
def insertAsc (e : ℚ × ℚ) : List (ℚ × ℚ) → List (ℚ × ℚ)
  | [] => [e]
  | f :: fs => if e.1 ≤ f.1 then e :: f :: fs else f :: insertAsc e fs

/-- Insertion sort of a bucket list by ascending key. -/
def sortAsc (l : List (ℚ × ℚ)) : List (ℚ × ℚ) :=
  l.foldr insertAsc []

/-- `Object.entries(ratios)` for the per-token bucket object: array-index
keys in ascending numeric order first, then the remaining keys in insertion
order. -/
def jsEntries (l : List (ℚ × ℚ)) : List (ℚ × ℚ) :=
  sortAsc (l.filter (fun e => isArrayIndexKey e.1)) ++
    l.filter (fun e => !isArrayIndexKey e.1)

/-- `parseInt(ratio)` applied to the canonical decimal string of a
non-negative JS number: truncation to an integer.  (Numbers below `10^-6`
print in exponent form and behave differently; the ratios handled here are
schema-bounded to `[0, 100]` plain decimals.) -/
def parseIntQ (q : ℚ) : ℚ := (⌊q⌋ : ℤ)

/-- The winner-selection loop of `TallyVoteTool._call` (lines 46–54):
`winningRatio = 0; winningPower = 0; for each entry, if (power >
winningPower) { winningRatio = parseInt(ratio); winningPower = power }`. -/
def pickWinner (entries : List (ℚ × ℚ)) : ℚ × ℚ :=
  entries.foldl
    (fun acc e => if acc.2 < e.2 then (parseIntQ e.1, e.2) else acc)
    (0, 0)

/-- One `results[token]` record of `TallyVoteTool._call`. -/
structure TokenResult where
  winningRatio : ℚ
  winningVotingPower : ℚ
  totalOptions : ℕ
deriving DecidableEq, Repr

/-- `results`: per token, the winner of `pickWinner` over the object-ordered
bucket entries, plus `Object.keys(ratios).length`. -/
def tallyResults (tallies : List (String × List (ℚ × ℚ))) :
    List (String × TokenResult) :=
  tallies.map (fun e =>
    (e.1,
     { winningRatio := (pickWinner (jsEntries e.2)).1
       winningVotingPower := (pickWinner (jsEntries e.2)).2
       totalOptions := e.2.length }))

/-- Lookup one token's result record. -/
def lookupResult (m : List (String × TokenResult)) (t : String) :
    Option TokenResult :=
  match m with
  | [] => none
  | (tk, r) :: rest => if tk = t then some r else lookupResult rest t

/-- The full output of `TallyVoteTool._call`. -/
structure TallyOutput where
  totalVotingPower : ℚ
  voterCount : ℕ
  tokenResults : List (String × TokenResult)
deriving DecidableEq, Repr

/-- `TallyVoteTool._call` (lines 10–68): deduplicate by voter, sum the
deduplicated powers, accumulate per-token/per-ratio buckets, pick winners. -/
def tallyVote (votes : List Vote) : TallyOutput :=
  let fv := finalVotes votes
  { totalVotingPower := sumPower fv
    voterCount := fv.length
    tokenResults := tallyResults (tallyTokens fv) }

/-- Champion step of the reference deduplication rule: a candidate is
replaced only by a strictly later timestamp. -/
def voteChamp (acc : Option Vote) (v : Vote) : Option Vote :=
  match acc with
  | none => some v
  | some a => if a.timestamp < v.timestamp then some v else acc

/-- Modelled from the spec (amended §4.2 step 1 wording): the vote a voter's
filtered sub-sequence retains — the vote with the latest timestamp, and on an
exact timestamp tie the one appearing *earliest* in the input sequence.
Reference definition used to state the deduplication claim. -/
def keepLatestFirst (l : List Vote) : Option Vote :=
  l.foldl voteChamp none

/-- Plain champion fold used to reason about `pickWinner` (same loop without
the `parseInt` rewrite of the stored key). -/
def champRec (acc : ℚ × ℚ) : List (ℚ × ℚ) → ℚ × ℚ
  | [] => acc
  | e :: es => champRec (if acc.2 < e.2 then e else acc) es

/-- Maximum bucket power of an entry list (`0` for the empty list). -/
def maxPow (entries : List (ℚ × ℚ)) : ℚ :=
  (entries.map Prod.snd).foldr max 0

/-! ## Vote schema validation (`vote.ts`, `parse_hcs2_vote.ts`) -/

/-- JSON values, as produced by a successful `JSON.parse`.  Objects are
association lists; duplicate keys are already resolved by the parser. -/
inductive Json where
  | null
  | bool (b : Bool)
  | num (q : ℚ)
  | str (s : String)
  | arr (items : List Json)
  | obj (fields : List (String × Json))

/-- Field access on a JSON value (`none` on non-objects and missing keys). -/
def jGet (j : Json) (key : String) : Option Json :=
  match j with
  | Json.obj fields => lookupField fields key
  | _ => none
where
  lookupField : List (String × Json) → String → Option Json
    | [], _ => none
    | (k, v) :: rest, key => if k = key then some v else lookupField rest key

/-- The regular expression `^0\.0\.\d+$` of `MultiRatioVoteSchema`'s
`voterAccountId` field. -/
def accountIdPattern (s : String) : Bool :=
  match s.toList with
  | '0' :: '.' :: '0' :: '.' :: rest =>
      !rest.isEmpty && rest.all (fun c => c.isDigit)
  | _ => false

/-- Numeric value of a decimal digit character. -/
def digitVal (c : Char) : ℕ := c.toNat - 48

/-- Canonical temporal value of a broken-down UTC date.  A mixed-radix
encoding standing for the epoch-millisecond value: injective and ordered
lexicographically on `(year, month, day, hour, minute, second, ms)`, which
matches chronological order on valid dates. -/
def encodeDate (y mo d h mi s ms : ℕ) : ℤ :=
  (((((y * 13 + mo) * 32 + d) * 24 + h) * 60 + mi) * 60 + s) * 1000 + ms

/-- `Date.parse` on the ISO-8601 UTC forms used by this repository:
`YYYY-MM-DDTHH:MM:SS.mmmZ`, `YYYY-MM-DDTHH:MM:SSZ` and the date-only
`YYYY-MM-DD` (parsed as UTC midnight).  Out-of-range fields yield an invalid
date (`none`); other `Date.parse` input formats are out of scope and
modelled as invalid. -/
def parseISODate (s : String) : Option ℤ :=
  match s.toList with
  | [y1, y2, y3, y4, '-', m1, m2, '-', d1, d2, 'T',
     h1, h2, ':', i1, i2, ':', s1, s2, '.', a1, a2, a3, 'Z'] =>
      fromFields [y1, y2, y3, y4] [m1, m2] [d1, d2] [h1, h2] [i1, i2]
        [s1, s2] [a1, a2, a3]
  | [y1, y2, y3, y4, '-', m1, m2, '-', d1, d2, 'T',
     h1, h2, ':', i1, i2, ':', s1, s2, 'Z'] =>
      fromFields [y1, y2, y3, y4] [m1, m2] [d1, d2] [h1, h2] [i1, i2]
        [s1, s2] ['0', '0', '0']
  | [y1, y2, y3, y4, '-', m1, m2, '-', d1, d2] =>
      fromFields [y1, y2, y3, y4] [m1, m2] [d1, d2] ['0', '0'] ['0', '0']
        ['0', '0'] ['0', '0', '0']
  | _ => none
where
  digitsVal (cs : List Char) : ℕ := cs.foldl (fun n c => n * 10 + digitVal c) 0
  fromFields (ys ms ds hs is ss as : List Char) : Option ℤ :=
    if (ys ++ ms ++ ds ++ hs ++ is ++ ss ++ as).all (fun c => c.isDigit) then
      let y := digitsVal ys
      let mo := digitsVal ms
      let d := digitsVal ds
      let h := digitsVal hs
      let mi := digitsVal is
      let sec := digitsVal ss
      let mil := digitsVal as
      if 1 ≤ mo ∧ mo ≤ 12 ∧ 1 ≤ d ∧ d ≤ 31 ∧ h ≤ 23 ∧ mi ≤ 59 ∧ sec ≤ 59
      then some (encodeDate y mo d h mi sec mil)
      else none
    else none

/-- `z.coerce.date()`: `new Date(input)` followed by the validity check.
Numbers are clipped to integer milliseconds, strings go through
`Date.parse`, booleans and `null` coerce to the numbers `0`/`1`; arrays and
objects are modelled as invalid (matching `{}` and multi-element arrays). -/
def coerceDate : Json → Option ℤ
  | Json.num q => some ⌊q⌋
  | Json.str s => parseISODate s
  | Json.bool b => some (if b then 1 else 0)
  | Json.null => some 0
  | _ => none

/-- Validation issues reported by the `MultiRatioVoteSchema` model.  The zod
original collects a list of issues; this model reports the first one in
field order, which suffices to identify an offending field. -/
inductive VoteValidationError where
  | notAnObject
  | badType
  | badRatioChanges
  | badRatioChangeShape
  | ratioOutOfRange
  | badVoterId
  | badVotingPower
  | negativeVotingPower
  | badTimestamp
  | wrongOptionalField (name : String)
deriving DecidableEq, Repr

/-- One element of the `ratioChanges` array:
`z.object({ token: z.string(), newRatio: z.number().min(0).max(100) })`. -/
def validateRatioChange (j : Json) : Except VoteValidationError RatioChange :=
  match j with
  | Json.obj _ =>
      match jGet j ("token"), jGet j ("newRatio") with
      | some (Json.str t), some (Json.num r) =>
          if 0 ≤ r ∧ r ≤ 100 then Except.ok ⟨t, r⟩
          else Except.error VoteValidationError.ratioOutOfRange
      | _, _ => Except.error VoteValidationError.badRatioChangeShape
  | _ => Except.error VoteValidationError.badRatioChangeShape

/-- `z.array(...)` over the ratio-change element schema. -/
def validateRatioChanges :
    List Json → Except VoteValidationError (List RatioChange)
  | [] => Except.ok []
  | j :: js =>
      match validateRatioChange j with
      | Except.error e => Except.error e
      | Except.ok rc =>
          match validateRatioChanges js with
          | Except.error e => Except.error e
          | Except.ok rest => Except.ok (rc :: rest)

/-- `z.string().optional()`: absent is fine, a string is fine, anything else
(including `null`) is a type issue. -/
def optionalString (j : Json) (field : String) :
    Except VoteValidationError (Option String) :=
  match jGet j field with
  | none => Except.ok none
  | some (Json.str s) => Except.ok (some s)
  | some _ => Except.error (VoteValidationError.wrongOptionalField field)

/-- `MultiRatioVoteSchema.parse` (`vote.ts` lines 3–14): the complete vote
validator.  Succeeds exactly when every field check passes, returning the
normalized vote with its timestamp coerced by `coerceDate`. -/
def validateVoteJson (j : Json) : Except VoteValidationError Vote :=
  match j with
  | Json.obj _ =>
      match jGet j ("type") with
      | some (Json.str t) =>
          if t = ("MULTI_RATIO_VOTE") then
            match jGet j ("ratioChanges") with
            | some (Json.arr rcs) =>
                match validateRatioChanges rcs with
                | Except.error e => Except.error e
                | Except.ok changes =>
                    match jGet j ("voterAccountId") with
                    | some (Json.str vid) =>
                        if accountIdPattern vid then
                          match jGet j ("votingPower") with
                          | some (Json.num p) =>
                              if 0 ≤ p then
                                match jGet j ("timestamp") with
                                | some tj =>
                                    match coerceDate tj with
                                    | some ts =>
                                        match optionalString j ("txId") with
                                        | Except.error e => Except.error e
                                        | Except.ok tx =>
                                            match optionalString j ("reason") with
                                            | Except.error e => Except.error e
                                            | Except.ok rs =>
                                                Except.ok
                                                  ⟨vid, p, changes, ts, tx, rs⟩
                                    | none =>
                                        Except.error
                                          VoteValidationError.badTimestamp
                                | none =>
                                    Except.error VoteValidationError.badTimestamp
                              else
                                Except.error
                                  VoteValidationError.negativeVotingPower
                          | _ => Except.error VoteValidationError.badVotingPower
                        else Except.error VoteValidationError.badVoterId
                    | _ => Except.error VoteValidationError.badVoterId
            | _ => Except.error VoteValidationError.badRatioChanges
          else Except.error VoteValidationError.badType
      | _ => Except.error VoteValidationError.badType
  | _ => Except.error VoteValidationError.notAnObject

/-- Schema issues of the outer HCS-2 envelope (`HCS2MessageSchema`). -/
inductive Hcs2Error where
  | notObject
  | badP
  | badOp
  | shapeMismatch
  | badMemo
deriving DecidableEq, Repr

/-- The validated HCS-2 envelope: `t_id`, the raw `metadata` string and the
optional memo `m`. -/
structure Hcs2Message where
  t_id : String
  metadata : String
  m : Option String
deriving DecidableEq, Repr

/-- `HCS2MessageSchema.parse` (`parse_hcs2_vote.ts` lines 5–11):
`p: z.literal('hcs-2')`, `op: z.literal('register')`, `t_id: z.string()`,
`metadata: z.string()`, `m: z.string().optional()`. -/
def parseHcs2 (j : Json) : Except Hcs2Error Hcs2Message :=
  match j with
  | Json.obj _ =>
      match jGet j ("p"), jGet j ("op"), jGet j ("t_id"), jGet j ("metadata") with
      | some (Json.str p), some (Json.str op), some (Json.str tid),
        some (Json.str md) =>
          if p = ("hcs-2") then
            if op = ("register") then
              match jGet j ("m") with
              | none => Except.ok ⟨tid, md, none⟩
              | some (Json.str mm) => Except.ok ⟨tid, md, some mm⟩
              | some _ => Except.error Hcs2Error.badMemo
            else Except.error Hcs2Error.badOp
          else Except.error Hcs2Error.badP
      | _, _, _, _ => Except.error Hcs2Error.shapeMismatch
  | _ => Except.error Hcs2Error.notObject

/-- One raw topic message as seen by `ParseHCS2VoteTool._call`.
`outerParse` is the outcome of `JSON.parse(rawMessage)` (`none` when it
throws); `metadataParse` is the outcome of `JSON.parse` applied to the
string content of the envelope's `metadata` field, when the envelope has
one. -/
structure RawMessage where
  outerParse : Option Json
  metadataParse : Option Json

/-- The `success: false` payloads `ParseHCS2VoteTool._call` can return. -/
inductive ParseFailure where
  | invalidJsonRaw
  | hcs2SchemaViolation (e : Hcs2Error)
  | invalidJsonMetadata
  | voteSchemaViolation (e : VoteValidationError)
deriving DecidableEq, Repr

/-- The JSON result string of `ParseHCS2VoteTool._call`, decoded: a failure
payload or the validated vote plus the `hcs2Info` fields. -/
inductive ParseToolResult where
  | failure (e : ParseFailure)
  | success (vote : Vote) (topicId : String) (memo : Option String)

/-- `ParseHCS2VoteTool._call` (lines 20–76): parse the raw message, validate
the HCS-2 envelope, parse the metadata string, validate the vote.  Every
failure returns a `success: false` result; the surrounding `try/catch`
converts thrown `ZodError`s into such results, so the tool never throws. -/
def parseHCS2Vote (raw : RawMessage) : ParseToolResult :=
  match raw.outerParse with
  | none => ParseToolResult.failure ParseFailure.invalidJsonRaw
  | some j =>
      match parseHcs2 j with
      | Except.error e =>
          ParseToolResult.failure (ParseFailure.hcs2SchemaViolation e)
      | Except.ok env =>
          match raw.metadataParse with
          | none => ParseToolResult.failure ParseFailure.invalidJsonMetadata
          | some vj =>
              match validateVoteJson vj with
              | Except.error e =>
                  ParseToolResult.failure (ParseFailure.voteSchemaViolation e)
              | Except.ok v => ParseToolResult.success v env.t_id env.m

/-! ## Contract update (`update_lynx_contract.ts`) -/

/-- `totalRatio`: the sum of the six ratio parameters. -/
def totalRatio (r : WinningRatios) : ℚ :=
  r.hbarRatio + r.wbtcRatio + r.sauceRatio + r.usdcRatio + r.jamRatio +
    r.headstartRatio

/-- Result of `UpdateLynxContractTool._call`: either the `success: false`
payload produced when the sum check throws (before any transaction is
built), or the issued contract call with its six ordered parameters and the
fate of the on-chain execution. -/
inductive ContractUpdateResult where
  | failureNoCall
  | called (params : List ℚ) (succeeded : Bool)
deriving DecidableEq, Repr

/-- `UpdateLynxContractTool._call` (lines 97–155): validate that the six
ratios sum to `100` within `0.01`; on violation the thrown error is caught
and a `success: false` result is returned without reaching the
`ContractExecuteTransaction` branch; otherwise the `updateRatios` call is
issued with the six ordered parameters. -/
def updateLynxContract (r : WinningRatios) (chainOk : Bool) :
    ContractUpdateResult :=
  if |totalRatio r - 100| > 1 / 100 then ContractUpdateResult.failureNoCall
  else
    ContractUpdateResult.called
      [r.hbarRatio, r.wbtcRatio, r.sauceRatio, r.usdcRatio, r.jamRatio,
       r.headstartRatio] chainOk

/-! ## Invariants and concrete sample data -/

/-- The invariant of the agent's round state: the running total equals the
recomputed sum over the stored votes, and the stored votes hold one entry per
`voterAccountId`. -/
def stateInvariant (st : GovState) : Prop :=
  st.currentVotingPower = sumPower st.collectedVotes ∧
  (st.collectedVotes.map Vote.voterAccountId).Nodup

/-- Sample vote: voter `0.0.1001`, power 500, `HBAR` at 50, timestamp 1. -/
def exVoteA : Vote := ⟨("0.0.1001"), 500, [⟨("HBAR"), 50⟩], 1, none, none⟩

/-- Sample vote: voter `0.0.1002`, power 300, `HBAR` at 40, timestamp 1. -/
def exVoteB : Vote := ⟨("0.0.1002"), 300, [⟨("HBAR"), 40⟩], 1, none, none⟩

/-- Zero-power revote of voter `0.0.1001` at a later timestamp. -/
def exZeroRevote : Vote := ⟨("0.0.1001"), 0, [⟨("HBAR"), 50⟩], 2, none, none⟩

/-- A lone zero-power vote proposing `HBAR` at 40. -/
def exZeroVote : Vote := ⟨("0.0.1001"), 0, [⟨("HBAR"), 40⟩], 0, none, none⟩

/-- Sample quorum-crossing vote: power 1100. -/
def exVoteBig : Vote := ⟨("0.0.1003"), 1100, [⟨("HBAR"), 40⟩], 1, none, none⟩

/-- Two same-voter votes with exactly equal timestamps. -/
def exTieA : Vote := ⟨("0.0.1001"), 100, [⟨("HBAR"), 30⟩], 5, none, none⟩

/-- Second tied vote of the same voter (appears later in the sequence). -/
def exTieB : Vote := ⟨("0.0.1001"), 200, [⟨("HBAR"), 60⟩], 5, none, none⟩

/-- Revote pair: 100 power for `HBAR` 30, then 200 power for `HBAR` 60. -/
def exRevoteA : Vote := ⟨("0.0.1001"), 100, [⟨("HBAR"), 30⟩], 1, none, none⟩

/-- Second vote of the revote pair. -/
def exRevoteB : Vote := ⟨("0.0.1001"), 200, [⟨("HBAR"), 60⟩], 2, none, none⟩

/-- Sample winning-ratio set summing to 100. -/
def exRatios : WinningRatios := ⟨50, 3, 7, 20, 10, 10⟩

/-- Ratio set violating the sum-to-100 check. -/
def exBadRatios : WinningRatios := ⟨0, 0, 0, 0, 0, 0⟩

/-- JSON metadata of a zero-power vote, as `MultiRatioVoteSchema` input. -/
def exZeroVoteJson : Json :=
  Json.obj
    [(("type"), Json.str ("MULTI_RATIO_VOTE")),
     (("ratioChanges"),
      Json.arr
        [Json.obj
          [(("token"), Json.str ("HBAR")), (("newRatio"), Json.num 50)]]),
     (("voterAccountId"), Json.str ("0.0.1001")),
     (("votingPower"), Json.num 0),
     (("timestamp"), Json.str ("2025-08-03T16:12:53.534Z"))]

/-- The vote `exZeroVoteJson` validates to. -/
def exZeroParsedVote : Vote :=
  ⟨("0.0.1001"), 0, [⟨("HBAR"), 50⟩], encodeDate 2025 8 3 16 12 53 534,
   none, none⟩

/-- A fully well-formed raw HCS-2 topic message carrying `exZeroVoteJson` as
its metadata payload. -/
def exRawMessage : RawMessage :=
  ⟨some
    (Json.obj
      [(("p"), Json.str ("hcs-2")),
       (("op"), Json.str ("register")),
       (("t_id"), Json.str ("0.0.555")),
       (("metadata"), Json.str ("vote-metadata-json"))]),
   some exZeroVoteJson⟩

/-- The non-integer ratio value 50.5 (`101/2`), legal under the schema's
`z.number().min(0).max(100)`; given in normalized raw form. -/
def ratioHalfHigh : ℚ := ⟨101, 2, by decide, by decide⟩

/-- The non-integer ratio value 40.5 (`81/2`). -/
def ratioHalfLow : ℚ := ⟨81, 2, by decide, by decide⟩

/-- Vote proposing the fractional ratio 50.5 for `HBAR` with power 300. -/
def exFracA : Vote :=
  ⟨("0.0.1001"), 300, [⟨("HBAR"), ratioHalfHigh⟩], 1, none, none⟩

/-- Vote of a second voter proposing the fractional ratio 40.5 for `HBAR`
with the same power 300. -/
def exFracB : Vote :=
  ⟨("0.0.1002"), 300, [⟨("HBAR"), ratioHalfLow⟩], 1, none, none⟩

/-! ## Round-state lemmas -/

theorem sumPower_shift (l : List Vote) (init c : ℚ) :
    l.foldl (fun s v => s + v.votingPower) (init + c) =
      l.foldl (fun s v => s + v.votingPower) init + c := by
  induction l generalizing init with
  | nil => rfl
  | cons v vs ih =>
      simp only [List.foldl_cons]
      rw [add_right_comm, ih]

theorem sumPower_cons (v : Vote) (vs : List Vote) :
    sumPower (v :: vs) = v.votingPower + sumPower vs := by
  have h := sumPower_shift vs 0 v.votingPower
  simp only [zero_add] at h
  simp only [sumPower, List.foldl_cons, zero_add]
  rw [h, add_comm]

theorem sumPower_append_single (l : List Vote) (v : Vote) :
    sumPower (l ++ [v]) = sumPower l + v.votingPower := by
  simp only [sumPower, List.foldl_append, List.foldl_cons, List.foldl_nil]

theorem findByVoter_eq_none_iff (l : List Vote) (V : String) :
    findByVoter l V = none ↔ ∀ w ∈ l, w.voterAccountId ≠ V := by
  induction l with
  | nil => simp [findByVoter]
  | cons v vs ih =>
      by_cases h : v.voterAccountId = V
      · simp [findByVoter, h]
      · simp [findByVoter, h, ih]

theorem findByVoter_mem (l : List Vote) (V : String) (w : Vote)
    (h : findByVoter l V = some w) : w ∈ l := by
  induction l with
  | nil => simp [findByVoter] at h
  | cons v vs ih =>
      by_cases hv : v.voterAccountId = V
      · rw [findByVoter, if_pos hv] at h
        exact (Option.some.inj h) ▸ List.mem_cons_self v vs
      · rw [findByVoter, if_neg hv] at h
        exact List.mem_cons_of_mem v (ih h)

theorem replaceFirst_map_voter (l : List Vote) (nv : Vote) :
    (replaceFirst l nv).map Vote.voterAccountId =
      l.map Vote.voterAccountId := by
  induction l with
  | nil => rfl
  | cons v vs ih =>
      by_cases h : v.voterAccountId = nv.voterAccountId
      · simp [replaceFirst, h]
      · simp [replaceFirst, h, ih]

theorem sumPower_replaceFirst (l : List Vote) (nv old : Vote)
    (h : findByVoter l nv.voterAccountId = some old) :
    sumPower (replaceFirst l nv) =
      sumPower l - old.votingPower + nv.votingPower := by
  induction l with
  | nil => simp [findByVoter] at h
  | cons v vs ih =>
      by_cases hv : v.voterAccountId = nv.voterAccountId
      · rw [findByVoter, if_pos hv] at h
        obtain rfl := Option.some.inj h
        rw [replaceFirst, if_pos hv, sumPower_cons, sumPower_cons]
        ring
      · rw [findByVoter, if_neg hv] at h
        rw [replaceFirst, if_neg hv, sumPower_cons, sumPower_cons, ih h]
        ring

theorem findByVoter_append_left_none (l m : List Vote) (V : String)
    (h : findByVoter l V = none) :
    findByVoter (l ++ m) V = findByVoter m V := by
  induction l with
  | nil => rfl
  | cons v vs ih =>
      by_cases hv : v.voterAccountId = V
      · rw [findByVoter, if_pos hv] at h
        exact absurd h (by simp)
      · rw [findByVoter, if_neg hv] at h
        rw [List.cons_append, findByVoter, if_neg hv]
        exact ih h

theorem replaceFirst_append_left_none (l m : List Vote) (nv : Vote)
    (h : findByVoter l nv.voterAccountId = none) :
    replaceFirst (l ++ m) nv = l ++ replaceFirst m nv := by
  induction l with
  | nil => rfl
  | cons v vs ih =>
      by_cases hv : v.voterAccountId = nv.voterAccountId
      · rw [findByVoter, if_pos hv] at h
        exact absurd h (by simp)
      · rw [findByVoter, if_neg hv] at h
        rw [List.cons_append, replaceFirst, if_neg hv, ih h, List.cons_append]

theorem replaceFirst_self_mem (l : List Vote) (nv old : Vote)
    (h : findByVoter l nv.voterAccountId = some old) :
    nv ∈ replaceFirst l nv := by
  induction l with
  | nil => simp [findByVoter] at h
  | cons v vs ih =>
      by_cases hv : v.voterAccountId = nv.voterAccountId
      · rw [replaceFirst, if_pos hv]
        exact List.mem_cons_self nv vs
      · rw [findByVoter, if_neg hv] at h
        rw [replaceFirst, if_neg hv]
        exact List.mem_cons_of_mem v (ih h)

theorem findByVoter_replaceFirst_self (l : List Vote) (nv old : Vote)
    (h : findByVoter l nv.voterAccountId = some old) :
    findByVoter (replaceFirst l nv) nv.voterAccountId = some nv := by
  induction l with
  | nil => simp [findByVoter] at h
  | cons v vs ih =>
      by_cases hv : v.voterAccountId = nv.voterAccountId
      · rw [replaceFirst, if_pos hv, findByVoter, if_pos rfl]
      · rw [findByVoter, if_neg hv] at h
        rw [replaceFirst, if_neg hv, findByVoter, if_neg hv]
        exact ih h

theorem stateInvariant_addVote (st : GovState) (v : Vote)
    (h : stateInvariant st) : stateInvariant (addVoteToState st v) := by
  obtain ⟨hsum, hnd⟩ := h
  cases hf : findByVoter st.collectedVotes v.voterAccountId with
  | none =>
      have hv : ∀ w ∈ st.collectedVotes, w.voterAccountId ≠ v.voterAccountId :=
        (findByVoter_eq_none_iff _ _).mp hf
      constructor
      · simp only [addVoteToState, hf]
        rw [sumPower_append_single, hsum]
      · simp only [addVoteToState, hf, List.map_append, List.map_cons,
          List.map_nil]
        rw [List.nodup_append]
        refine ⟨hnd, List.nodup_singleton _, ?_⟩
        intro a ha hb
        simp only [List.mem_map] at ha
        obtain ⟨w, hw, rfl⟩ := ha
        simp only [List.mem_singleton] at hb
        exact hv w hw hb
  | some old =>
      constructor
      · simp only [addVoteToState, hf]
        rw [sumPower_replaceFirst _ _ _ hf, hsum]
      · simp only [addVoteToState, hf]
        rw [replaceFirst_map_voter]
        exact hnd

theorem stateInvariant_foldl (l : List Vote) (st : GovState)
    (h : stateInvariant st) : stateInvariant (l.foldl addVoteToState st) := by
  induction l generalizing st with
  | nil => exact h
  | cons v vs ih => exact ih _ (stateInvariant_addVote _ _ h)

theorem stateInvariant_initial : stateInvariant initialState := by
  constructor
  · rfl
  · simp [initialState]

/-- C1: for every sequence of votes applied through `addVoteToState`, the
running total `currentVotingPower` equals the sum of `votingPower` over the
current stored votes, and the stored votes are deduplicated — one entry per
`voterAccountId`. -/
theorem addVoteToState_total_power_invariant (votes : List Vote) :
    (applyVotes votes).currentVotingPower =
      sumPower (applyVotes votes).collectedVotes ∧
    ((applyVotes votes).collectedVotes.map Vote.voterAccountId).Nodup :=
  stateInvariant_foldl votes initialState stateInvariant_initial

/-- C1 witness: the invariant evaluated on a concrete vote sequence that
contains a revote. -/
theorem addVoteToState_total_power_invariant_witness :
    (applyVotes [exVoteA, exVoteB, exZeroRevote]).currentVotingPower =
      sumPower (applyVotes [exVoteA, exVoteB, exZeroRevote]).collectedVotes ∧
    ((applyVotes [exVoteA, exVoteB, exZeroRevote]).collectedVotes.map
      Vote.voterAccountId).Nodup :=
  addVoteToState_total_power_invariant [exVoteA, exVoteB, exZeroRevote]

/-- C2 (code bug evidence): when `calculateWinningRatios` has produced a
ratio object and the contract-update step fails, `executeGovernanceFlow`
still resets the round state — the collected votes and the accumulated total
power are dropped, because `updateContract` catches every error internally
and the flow never inspects the update's outcome. -/
theorem executeGovernanceFlow_drops_votes_on_contract_failure :
    executeGovernanceFlow ⟨[exVoteBig], 1100⟩ (some exRatios)
        StepOutcome.error = ⟨[], 0⟩ ∧
    ([exVoteBig] : List Vote) ≠ [] ∧ (1100 : ℚ) ≥ QUORUM_THRESHOLD := by
  refine ⟨rfl, by simp, by norm_num [QUORUM_THRESHOLD]⟩

/-- C6: processing a vote invokes the settlement flow exactly when the total
power after adding the vote reaches `QUORUM_THRESHOLD`; while the total
stays strictly below the threshold the state simply accumulates the vote
(the round keeps collecting) and settlement is never invoked. -/
theorem processTopicMessage_below_quorum_no_settlement
    (st : GovState) (v : Vote) (ratios : Option WinningRatios)
    (o : StepOutcome) :
    ((processTopicMessage st (some v) ratios o).2 = true ↔
      QUORUM_THRESHOLD ≤ (addVoteToState st v).currentVotingPower) ∧
    ((addVoteToState st v).currentVotingPower < QUORUM_THRESHOLD →
      processTopicMessage st (some v) ratios o = (addVoteToState st v, false)) := by
  constructor
  · simp only [processTopicMessage]
    split
    next h => simpa using h
    next h => simpa using h
  · intro hlt
    simp only [processTopicMessage]
    rw [if_neg (not_le.mpr hlt)]

/-- C6 witness: the spec's single 500-power vote below threshold — no phase
change, no settlement. -/
theorem processTopicMessage_below_quorum_no_settlement_witness :
    processTopicMessage initialState (some exVoteA) none StepOutcome.ok =
      (addVoteToState initialState exVoteA, false) :=
  (processTopicMessage_below_quorum_no_settlement initialState exVoteA none
    StepOutcome.ok).2
    (by simp only [addVoteToState, initialState, findByVoter, exVoteA,
          QUORUM_THRESHOLD, zero_add]
        decide)

/-! ## Deduplication lemmas (tally voter map) -/

theorem mapGet_mapSet_self (m : List (String × Vote)) (k : String) (v : Vote) :
    mapGet (mapSet m k v) k = some v := by
  induction m with
  | nil => simp [mapSet, mapGet]
  | cons e rest ih =>
      obtain ⟨k1, v1⟩ := e
      by_cases h : k1 = k
      · rw [mapSet, if_pos h, mapGet, if_pos rfl]
      · rw [mapSet, if_neg h, mapGet, if_neg h]
        exact ih

theorem mapGet_mapSet_ne (m : List (String × Vote)) (k k2 : String) (v : Vote)
    (h : k ≠ k2) : mapGet (mapSet m k v) k2 = mapGet m k2 := by
  induction m with
  | nil => simp [mapSet, mapGet, h]
  | cons e rest ih =>
      obtain ⟨k1, v1⟩ := e
      by_cases h1 : k1 = k
      · rw [mapSet, if_pos h1, mapGet, if_neg h, mapGet, if_neg (h1 ▸ h)]
      · rw [mapSet, if_neg h1, mapGet, mapGet]
        by_cases h2 : k1 = k2
        · rw [if_pos h2, if_pos h2]
        · rw [if_neg h2, if_neg h2]
          exact ih

theorem mapGet_foldl_voterMapStep (votes : List Vote)
    (m : List (String × Vote)) (V : String) :
    mapGet (votes.foldl voterMapStep m) V =
      (votes.filter (fun v => v.voterAccountId = V)).foldl voteChamp
        (mapGet m V) := by
  induction votes generalizing m with
  | nil => rfl
  | cons w ws ih =>
      rw [List.foldl_cons, ih]
      by_cases hw : w.voterAccountId = V
      · have hfilter :
            (w :: ws).filter (fun v => v.voterAccountId = V) =
              w :: ws.filter (fun v => v.voterAccountId = V) := by
          simp [List.filter_cons, hw]
        rw [hfilter, List.foldl_cons]
        congr 1
        rw [voterMapStep, hw]
        cases hm : mapGet m V with
        | none => simpa [voteChamp] using mapGet_mapSet_self m V w
        | some ex =>
            by_cases ht : ex.timestamp < w.timestamp
            · simpa [voteChamp, ht] using mapGet_mapSet_self m V w
            · simp [voteChamp, ht, hm]
      · have hfilter :
            (w :: ws).filter (fun v => v.voterAccountId = V) =
              ws.filter (fun v => v.voterAccountId = V) := by
          simp [List.filter_cons, hw]
        rw [hfilter]
        congr 1
        rw [voterMapStep]
        cases hm : mapGet m w.voterAccountId with
        | none => exact mapGet_mapSet_ne m w.voterAccountId V w hw
        | some ex =>
            by_cases ht : ex.timestamp < w.timestamp
            · simpa [ht] using mapGet_mapSet_ne m w.voterAccountId V w hw
            · simp [ht]

/-- C3 (amended): the tally deduplication keeps, for each voter, the vote
with the latest timestamp among that voter's votes — and on an exact
timestamp tie the vote appearing *earliest* in the input sequence (the
strict comparison `vote.timestamp > existing.timestamp` never replaces the
stored vote on a tie). -/
theorem buildVoterMap_keeps_latest_then_first (votes : List Vote) (V : String) :
    mapGet (buildVoterMap votes) V =
      keepLatestFirst (votes.filter (fun v => v.voterAccountId = V)) :=
  mapGet_foldl_voterMapStep votes [] V

/-- C3 counterexample: two same-voter votes with exactly equal timestamps —
the tally keeps the *first* of the two, not the later-in-sequence one the
claim requires. -/
theorem tally_dedup_tie_keeps_first_counterexample :
    mapGet (buildVoterMap [exTieA, exTieB]) ("0.0.1001") = some exTieA ∧
    exTieA ≠ exTieB ∧ exTieA.timestamp = exTieB.timestamp := by
  refine ⟨?_, by decide, rfl⟩
  decide

theorem findByVoter_addVoteToState_self (st : GovState) (v : Vote) :
    findByVoter (addVoteToState st v).collectedVotes v.voterAccountId =
      some v := by
  cases hf : findByVoter st.collectedVotes v.voterAccountId with
  | none =>
      simp only [addVoteToState, hf]
      rw [findByVoter_append_left_none _ _ _ hf]
      simp [findByVoter]
  | some old =>
      simp only [addVoteToState, hf]
      exact findByVoter_replaceFirst_self _ _ _ hf

/-- C5: a voter's revote nets out the previously stored power before adding
the new power.  If voter V (with no earlier entry in the round state) votes
power 100 and then power 200, the running total rises by exactly 200 (not
300), the stored votes keep only the second vote for V, and the tally
deduplication over the stored votes yields the second vote for V. -/
theorem addVoteToState_revote_nets_out (st : GovState) (v1 v2 : Vote)
    (hv : v1.voterAccountId = v2.voterAccountId)
    (hnew : findByVoter st.collectedVotes v2.voterAccountId = none)
    (hp1 : v1.votingPower = 100) (hp2 : v2.votingPower = 200) :
    (addVoteToState (addVoteToState st v1) v2).currentVotingPower =
      st.currentVotingPower + 200 ∧
    (addVoteToState (addVoteToState st v1) v2).collectedVotes =
      st.collectedVotes ++ [v2] ∧
    mapGet
      (buildVoterMap
        (addVoteToState (addVoteToState st v1) v2).collectedVotes)
      v2.voterAccountId = some v2 := by
  have h1 : findByVoter st.collectedVotes v1.voterAccountId = none := by
    rw [hv]; exact hnew
  have hst1 : addVoteToState st v1 =
      ⟨st.collectedVotes ++ [v1],
       st.currentVotingPower + v1.votingPower⟩ := by
    simp only [addVoteToState, h1]
  have h2 : findByVoter (st.collectedVotes ++ [v1]) v2.voterAccountId =
      some v1 := by
    rw [findByVoter_append_left_none _ _ _ hnew]
    simp [findByVoter, hv]
  have hrepl : replaceFirst (st.collectedVotes ++ [v1]) v2 =
      st.collectedVotes ++ [v2] := by
    rw [replaceFirst_append_left_none _ _ _ hnew]
    simp [replaceFirst, hv]
  have hst2 : addVoteToState (addVoteToState st v1) v2 =
      ⟨st.collectedVotes ++ [v2], st.currentVotingPower + 200⟩ := by
    rw [hst1]
    simp only [addVoteToState, h2, hrepl]
    congr 1
    rw [hp1, hp2]
    ring
  refine ⟨by rw [hst2], by rw [hst2], ?_⟩
  rw [hst2]
  rw [buildVoterMap_keeps_latest_then_first]
  have hfl : st.collectedVotes.filter
      (fun v => v.voterAccountId = v2.voterAccountId) = [] := by
    rw [List.filter_eq_nil_iff]
    intro w hw
    simpa using (findByVoter_eq_none_iff _ _).mp hnew w hw
  rw [List.filter_append, hfl]
  simp [keepLatestFirst, voteChamp]

/-- C5 witness: the 100-then-200 revote evaluated from the empty round
state. -/
theorem addVoteToState_revote_nets_out_witness :
    (addVoteToState (addVoteToState initialState exRevoteA)
        exRevoteB).currentVotingPower =
      initialState.currentVotingPower + 200 ∧
    (addVoteToState (addVoteToState initialState exRevoteA)
        exRevoteB).collectedVotes =
      initialState.collectedVotes ++ [exRevoteB] ∧
    mapGet
      (buildVoterMap
        (addVoteToState (addVoteToState initialState exRevoteA)
          exRevoteB).collectedVotes)
      exRevoteB.voterAccountId = some exRevoteB :=
  addVoteToState_revote_nets_out initialState exRevoteA exRevoteB rfl rfl
    rfl rfl

/-- C10: the round state replaces a voter's stored vote unconditionally —
after two same-voter votes the retained vote is always the second-arriving
one, with no timestamp comparison; the tally engine, by contrast, keeps the
first vote whenever the second's timestamp is not strictly later. -/
theorem addVoteToState_second_vote_wins_regardless_of_timestamp
    (st : GovState) (v1 v2 : Vote)
    (hv : v1.voterAccountId = v2.voterAccountId) :
    findByVoter (addVoteToState (addVoteToState st v1) v2).collectedVotes
      v2.voterAccountId = some v2 ∧
    (v2.timestamp < v1.timestamp →
      mapGet (buildVoterMap [v1, v2]) v2.voterAccountId = some v1) := by
  constructor
  · exact findByVoter_addVoteToState_self _ v2
  · intro ht
    rw [buildVoterMap_keeps_latest_then_first]
    have hfl : ([v1, v2].filter
        (fun v => v.voterAccountId = v2.voterAccountId)) = [v1, v2] := by
      simp [hv]
    rw [hfl]
    simp [keepLatestFirst, voteChamp, asymm ht]

/-- C10 witness: a second-arriving vote with an *earlier* timestamp still
replaces the stored vote, while the tally keeps the first vote. -/
theorem addVoteToState_second_vote_wins_witness :
    findByVoter
      (addVoteToState (addVoteToState initialState exRevoteB)
        exRevoteA).collectedVotes
      exRevoteA.voterAccountId = some exRevoteA ∧
    mapGet (buildVoterMap [exRevoteB, exRevoteA]) exRevoteA.voterAccountId =
      some exRevoteB :=
  ⟨(addVoteToState_second_vote_wins_regardless_of_timestamp initialState
      exRevoteB exRevoteA rfl).1,
   (addVoteToState_second_vote_wins_regardless_of_timestamp initialState
      exRevoteB exRevoteA rfl).2 (by decide)⟩

/-- C7 (amended): a zero-power vote passes schema validation and is recorded
in the round state; applying it never *increases* the total power (a
zero-power revote can decrease it by netting out the voter's earlier power),
so it never itself trips quorum; and a zero-power revote can still change a
token's winning ratio in the tally. -/
theorem zero_power_vote_recorded_no_quorum_can_change_winner :
    (validateVoteJson exZeroVoteJson = Except.ok exZeroParsedVote ∧
      exZeroParsedVote.votingPower = 0) ∧
    (∀ st v, v.votingPower = 0 →
      (∀ w ∈ st.collectedVotes, 0 ≤ w.votingPower) →
      (addVoteToState st v).currentVotingPower ≤ st.currentVotingPower ∧
      v ∈ (addVoteToState st v).collectedVotes ∧
      (st.currentVotingPower < QUORUM_THRESHOLD →
        (addVoteToState st v).currentVotingPower < QUORUM_THRESHOLD)) ∧
    (lookupResult (tallyVote [exVoteA, exVoteB, exZeroRevote]).tokenResults
        ("HBAR") = some ⟨40, 300, 2⟩ ∧
      lookupResult (tallyVote [exVoteA, exVoteB]).tokenResults ("HBAR") =
        some ⟨50, 500, 2⟩ ∧
      exZeroRevote.votingPower = 0) := by
  refine ⟨⟨by rfl, rfl⟩, ?_, by decide, by decide, rfl⟩
  intro st v hp hnn
  cases hf : findByVoter st.collectedVotes v.voterAccountId with
  | none =>
      refine ⟨?_, ?_, ?_⟩
      · simp only [addVoteToState, hf, hp, add_zero]
        exact le_refl _
      · simp only [addVoteToState, hf]
        exact List.mem_append_right _ (List.mem_singleton_self v)
      · intro hlt
        simpa only [addVoteToState, hf, hp, add_zero] using hlt
  | some old =>
      have hold : 0 ≤ old.votingPower := hnn old (findByVoter_mem _ _ _ hf)
      have hle : st.currentVotingPower - old.votingPower + v.votingPower ≤
          st.currentVotingPower := by
        rw [hp, add_zero]
        linarith
      refine ⟨?_, ?_, ?_⟩
      · simpa only [addVoteToState, hf] using hle
      · simp only [addVoteToState, hf]
        exact replaceFirst_self_mem _ _ _ hf
      · intro hlt
        have := lt_of_le_of_lt hle hlt
        simpa only [addVoteToState, hf] using this

/-- C7 witness: the general zero-power step applied to a concrete state
holding one 500-power vote, with the zero-power revote evaluated. -/
theorem zero_power_vote_witness :
    (addVoteToState ⟨[exVoteA], 500⟩ exZeroRevote).currentVotingPower ≤
      (500 : ℚ) ∧
    exZeroRevote ∈ (addVoteToState ⟨[exVoteA], 500⟩
      exZeroRevote).collectedVotes ∧
    ((500 : ℚ) < QUORUM_THRESHOLD →
      (addVoteToState ⟨[exVoteA], 500⟩ exZeroRevote).currentVotingPower <
        QUORUM_THRESHOLD) :=
  zero_power_vote_recorded_no_quorum_can_change_winner.2.1
    ⟨[exVoteA], 500⟩ exZeroRevote rfl (by decide)

/-- C7 counterexample: the claim's "applying it never changes the total
power" is false — a zero-power revote that supersedes the voter's earlier
500-power vote drops the total from 500 to 0. -/
theorem zero_power_revote_changes_total_power :
    (addVoteToState (addVoteToState initialState exVoteA)
        exZeroRevote).currentVotingPower = 0 ∧
    (addVoteToState initialState exVoteA).currentVotingPower = 500 ∧
    exZeroRevote.votingPower = 0 := by
  refine ⟨?_, ?_, rfl⟩
  · simp only [addVoteToState, initialState, findByVoter, exVoteA,
      exZeroRevote, replaceFirst]
    norm_num
  · simp only [addVoteToState, initialState, findByVoter, exVoteA]
    norm_num

/-- C8: the contract-update tool checks that the six ratio parameters sum to
100 (tolerance 0.01) before building any transaction; every violating input
yields the `success: false` result and the contract-call branch is never
reached. -/
theorem updateLynxContract_sum_check (r : WinningRatios) (chainOk : Bool)
    (h : |totalRatio r - 100| > 1 / 100) :
    updateLynxContract r chainOk = ContractUpdateResult.failureNoCall ∧
    ∀ params ok2, updateLynxContract r chainOk ≠
      ContractUpdateResult.called params ok2 := by
  have h1 : updateLynxContract r chainOk =
      ContractUpdateResult.failureNoCall := by
    rw [updateLynxContract, if_pos h]
  refine ⟨h1, fun params ok2 hc => ?_⟩
  rw [h1] at hc
  cases hc

/-- C8 witness: the all-zero ratio set (sum 0) is rejected and no contract
call is issued. -/
theorem updateLynxContract_sum_check_witness :
    updateLynxContract exBadRatios true = ContractUpdateResult.failureNoCall ∧
    ∀ params ok2, updateLynxContract exBadRatios true ≠
      ContractUpdateResult.called params ok2 :=
  updateLynxContract_sum_check exBadRatios true
    (by norm_num [totalRatio, exBadRatios])

/-! ## Validation lemmas -/

theorem validateRatioChange_ok (j : Json) (rc : RatioChange)
    (h : validateRatioChange j = Except.ok rc) :
    0 ≤ rc.newRatio ∧ rc.newRatio ≤ 100 := by
  unfold validateRatioChange at h
  repeat' split at h
  all_goals try exact Except.noConfusion h
  next hcond =>
    obtain rfl := Except.ok.inj h
    exact hcond

theorem validateRatioChanges_ok (js : List Json) (l : List RatioChange)
    (h : validateRatioChanges js = Except.ok l) :
    ∀ rc ∈ l, 0 ≤ rc.newRatio ∧ rc.newRatio ≤ 100 := by
  induction js generalizing l with
  | nil =>
      rw [validateRatioChanges] at h
      obtain rfl := Except.ok.inj h
      simp
  | cons j js ih =>
      rw [validateRatioChanges] at h
      split at h
      · exact Except.noConfusion h
      next rc hj =>
        split at h
        · exact Except.noConfusion h
        next rest hrest =>
          obtain rfl := Except.ok.inj h
          intro x hx
          rcases List.mem_cons.mp hx with rfl | hx2
          · exact validateRatioChange_ok j x hj
          · exact ih rest hrest x hx2

theorem validateVoteJson_ok_props (j : Json) (v : Vote)
    (h : validateVoteJson j = Except.ok v) :
    0 ≤ v.votingPower ∧ accountIdPattern v.voterAccountId = true ∧
    (∀ rc ∈ v.ratioChanges, 0 ≤ rc.newRatio ∧ rc.newRatio ≤ 100) ∧
    ∃ tj, jGet j ("timestamp") = some tj ∧
      coerceDate tj = some v.timestamp := by
  unfold validateVoteJson at h
  repeat' split at h
  all_goals try exact Except.noConfusion h
  next =>
    obtain rfl := Except.ok.inj h
    exact ⟨by assumption, by assumption,
      validateRatioChanges_ok _ _ (by assumption),
      ⟨_, by assumption, by assumption⟩⟩

/-- C9: `ParseHCS2VoteTool._call` is total over raw messages — for every
input it returns either a `success: false` result identifying the failure
(invalid JSON, envelope schema violation, invalid metadata JSON, or a vote
schema violation naming the offending field) or a normalized vote whose
`votingPower` is non-negative, whose `voterAccountId` matches the account-id
pattern, whose ratios all lie in `[0, 100]`, and whose timestamp is the
coerced canonical temporal value of the metadata's `timestamp` field; it
never throws. -/
theorem parseHCS2Vote_never_throws (raw : RawMessage) :
    (∃ e, parseHCS2Vote raw = ParseToolResult.failure e) ∨
    (∃ v tid memo, parseHCS2Vote raw = ParseToolResult.success v tid memo ∧
      0 ≤ v.votingPower ∧ accountIdPattern v.voterAccountId = true ∧
      (∀ rc ∈ v.ratioChanges, 0 ≤ rc.newRatio ∧ rc.newRatio ≤ 100) ∧
      ∃ mj tj, raw.metadataParse = some mj ∧
        jGet mj ("timestamp") = some tj ∧
        coerceDate tj = some v.timestamp) := by
  cases ho : raw.outerParse with
  | none =>
      exact Or.inl ⟨ParseFailure.invalidJsonRaw,
        by simp only [parseHCS2Vote, ho]⟩
  | some j =>
      cases hh : parseHcs2 j with
      | error e =>
          exact Or.inl ⟨ParseFailure.hcs2SchemaViolation e,
            by simp only [parseHCS2Vote, ho, hh]⟩
      | ok env =>
          cases hm : raw.metadataParse with
          | none =>
              exact Or.inl ⟨ParseFailure.invalidJsonMetadata,
                by simp only [parseHCS2Vote, ho, hh, hm]⟩
          | some vj =>
              cases hv : validateVoteJson vj with
              | error e =>
                  exact Or.inl ⟨ParseFailure.voteSchemaViolation e,
                    by simp only [parseHCS2Vote, ho, hh, hm, hv]⟩
              | ok v =>
                  obtain ⟨h1, h2, h3, tj, htj, hts⟩ :=
                    validateVoteJson_ok_props vj v hv
                  refine Or.inr
                    ⟨v, env.t_id, env.m, ?_, h1, h2, h3, vj, tj, rfl, htj,
                     hts⟩
                  simp only [parseHCS2Vote, ho, hh, hm, hv]

/-- C9 witness: the classification evaluated on a concrete fully well-formed
raw message. -/
theorem parseHCS2Vote_never_throws_witness :
    (∃ e, parseHCS2Vote exRawMessage = ParseToolResult.failure e) ∨
    (∃ v tid memo,
      parseHCS2Vote exRawMessage = ParseToolResult.success v tid memo ∧
      0 ≤ v.votingPower ∧ accountIdPattern v.voterAccountId = true ∧
      (∀ rc ∈ v.ratioChanges, 0 ≤ rc.newRatio ∧ rc.newRatio ≤ 100) ∧
      ∃ mj tj, exRawMessage.metadataParse = some mj ∧
        jGet mj ("timestamp") = some tj ∧
        coerceDate tj = some v.timestamp) :=
  parseHCS2Vote_never_throws exRawMessage

/-! ## Winner-selection lemmas -/

theorem maxPow_cons (e : ℚ × ℚ) (es : List (ℚ × ℚ)) :
    maxPow (e :: es) = max e.2 (maxPow es) := rfl

theorem le_maxPow (es : List (ℚ × ℚ)) : ∀ e ∈ es, e.2 ≤ maxPow es := by
  induction es with
  | nil => simp
  | cons f fs ih =>
      intro e he
      rcases List.mem_cons.mp he with rfl | he2
      · rw [maxPow_cons]
        exact le_max_left _ _
      · rw [maxPow_cons]
        exact le_trans (ih e he2) (le_max_right _ _)

theorem maxPow_perm (l1 l2 : List (ℚ × ℚ)) (h : l1.Perm l2) :
    maxPow l1 = maxPow l2 := by
  unfold maxPow
  induction h with
  | nil => rfl
  | cons x h ih => simp only [List.map_cons, List.foldr_cons, ih]
  | swap x y l =>
      simp only [List.map_cons, List.foldr_cons]
      rw [max_left_comm]
  | trans h1 h2 ih1 ih2 => exact ih1.trans ih2

theorem champRec_of_all_le (acc : ℚ × ℚ) (es : List (ℚ × ℚ))
    (h : ∀ e ∈ es, e.2 ≤ acc.2) : champRec acc es = acc := by
  induction es generalizing acc with
  | nil => rfl
  | cons f fs ih =>
      rw [champRec, if_neg (not_lt.mpr (h f (List.mem_cons_self _ _)))]
      exact ih acc (fun e he => h e (List.mem_cons_of_mem _ he))

theorem champRec_eq_first_max (es : List (ℚ × ℚ)) : ∀ acc : ℚ × ℚ,
    0 ≤ acc.2 → acc.2 < maxPow es →
    ∃ l1 e l2, es = l1 ++ e :: l2 ∧ e.2 = maxPow es ∧
      (∀ x ∈ l1, x.2 < maxPow es) ∧ champRec acc es = e := by
  induction es with
  | nil =>
      intro acc h0 h
      have : (0 : ℚ) < maxPow [] := lt_of_le_of_lt h0 h
      simp [maxPow] at this
  | cons f fs ih =>
      intro acc h0 h
      rw [maxPow_cons] at h
      by_cases hle : maxPow fs ≤ f.2
      · have hmax : max f.2 (maxPow fs) = f.2 := max_eq_left hle
        have hacc : acc.2 < f.2 := by rwa [hmax] at h
        refine ⟨[], f, fs, by simp, by rw [maxPow_cons, hmax], by simp, ?_⟩
        rw [champRec, if_pos hacc]
        exact champRec_of_all_le f fs
          (fun e he => le_trans (le_maxPow fs e he) hle)
      · push_neg at hle
        have hmax : max f.2 (maxPow fs) = maxPow fs := max_eq_right hle.le
        have h02 : 0 ≤ (if acc.2 < f.2 then f else acc).2 := by
          split
          · exact le_of_lt (lt_of_le_of_lt h0 (by assumption))
          · exact h0
        have hlt2 : (if acc.2 < f.2 then f else acc).2 < maxPow fs := by
          split
          · exact hle
          · rwa [hmax] at h
        obtain ⟨l1, e, l2, heq, hemax, hl1, hch⟩ := ih _ h02 hlt2
        refine ⟨f :: l1, e, l2, by rw [List.cons_append, heq], ?_, ?_, ?_⟩
        · rw [maxPow_cons, hmax]
          exact hemax
        · intro x hx
          rcases List.mem_cons.mp hx with rfl | hx2
          · rw [maxPow_cons, hmax]
            exact hle
          · rw [maxPow_cons, hmax]
            exact hl1 x hx2
        · rw [champRec]
          exact hch

theorem pickWinner_foldl_eq_champRec (es : List (ℚ × ℚ)) :
    ∀ acc : ℚ × ℚ, (∀ e ∈ es, parseIntQ e.1 = e.1) →
    es.foldl
      (fun acc e => if acc.2 < e.2 then (parseIntQ e.1, e.2) else acc) acc =
      champRec acc es := by
  induction es with
  | nil => intro acc _; rfl
  | cons f fs ih =>
      intro acc h
      rw [List.foldl_cons, champRec]
      have hstep : (if acc.2 < f.2 then (parseIntQ f.1, f.2) else acc) =
          (if acc.2 < f.2 then f else acc) := by
        rw [h f (List.mem_cons_self _ _)]
      rw [hstep]
      exact ih _ (fun e he => h e (List.mem_cons_of_mem _ he))

theorem pickWinner_eq_champRec (es : List (ℚ × ℚ))
    (h : ∀ e ∈ es, parseIntQ e.1 = e.1) :
    pickWinner es = champRec (0, 0) es := by
  rw [pickWinner]
  exact pickWinner_foldl_eq_champRec es (0, 0) h

theorem pickWinner_foldl_stays (es : List (ℚ × ℚ)) :
    ∀ acc : ℚ × ℚ, (∀ e ∈ es, e.2 ≤ acc.2) →
    es.foldl
      (fun acc e => if acc.2 < e.2 then (parseIntQ e.1, e.2) else acc) acc =
      acc := by
  induction es with
  | nil =>
      intro acc _
      rfl
  | cons f fs ih =>
      intro acc h
      simp only [List.foldl_cons]
      rw [if_neg (not_lt.mpr (h f (List.mem_cons_self _ _)))]
      exact ih acc (fun e he => h e (List.mem_cons_of_mem _ he))

theorem pickWinner_of_all_nonpos (es : List (ℚ × ℚ))
    (h : ∀ e ∈ es, e.2 ≤ 0) : pickWinner es = (0, 0) := by
  rw [pickWinner]
  exact pickWinner_foldl_stays es (0, 0) h


theorem insertAsc_perm (e : ℚ × ℚ) (l : List (ℚ × ℚ)) :
    (insertAsc e l).Perm (e :: l) := by
  induction l with
  | nil => exact List.Perm.refl _
  | cons f fs ih =>
      rw [insertAsc]
      split
      · exact List.Perm.refl _
      · exact (List.Perm.cons f ih).trans (List.Perm.swap e f fs)

theorem sortAsc_perm (l : List (ℚ × ℚ)) : (sortAsc l).Perm l := by
  induction l with
  | nil => exact List.Perm.refl _
  | cons f fs ih =>
      have : sortAsc (f :: fs) = insertAsc f (sortAsc fs) := rfl
      rw [this]
      exact (insertAsc_perm f (sortAsc fs)).trans (List.Perm.cons f ih)

theorem mem_insertAsc (e x : ℚ × ℚ) (l : List (ℚ × ℚ)) :
    x ∈ insertAsc e l ↔ x = e ∨ x ∈ l := by
  rw [(insertAsc_perm e l).mem_iff, List.mem_cons]

theorem insertAsc_sorted (e : ℚ × ℚ) (l : List (ℚ × ℚ))
    (h : List.Pairwise (fun a b : ℚ × ℚ => a.1 ≤ b.1) l) :
    List.Pairwise (fun a b : ℚ × ℚ => a.1 ≤ b.1) (insertAsc e l) := by
  induction l with
  | nil => simp [insertAsc]
  | cons f fs ih =>
      rw [insertAsc]
      split
      next hle =>
        refine List.Pairwise.cons ?_ h
        intro x hx
        rcases List.mem_cons.mp hx with rfl | hx2
        · exact hle
        · exact le_trans hle (List.rel_of_pairwise_cons h hx2)
      next hgt =>
        push_neg at hgt
        obtain ⟨hf, hfs⟩ := List.pairwise_cons.mp h
        refine List.Pairwise.cons ?_ (ih hfs)
        intro x hx
        rcases (mem_insertAsc e x fs).mp hx with rfl | hx2
        · exact le_of_lt hgt
        · exact hf x hx2

theorem sortAsc_sorted (l : List (ℚ × ℚ)) :
    List.Pairwise (fun a b : ℚ × ℚ => a.1 ≤ b.1) (sortAsc l) := by
  induction l with
  | nil => simp [sortAsc]
  | cons f fs ih => exact insertAsc_sorted f (sortAsc fs) ih

theorem sorted_nodupkeys_lt (l : List (ℚ × ℚ))
    (hs : List.Pairwise (fun a b : ℚ × ℚ => a.1 ≤ b.1) l)
    (hn : (l.map Prod.fst).Nodup) :
    List.Pairwise (fun a b : ℚ × ℚ => a.1 < b.1) l := by
  have hne : List.Pairwise (fun a b : ℚ × ℚ => a.1 ≠ b.1) l :=
    List.pairwise_map.mp hn
  exact (hs.and hne).imp (fun h => lt_of_le_of_ne h.1 h.2)

theorem mem_jsEntries (b : List (ℚ × ℚ)) (e : ℚ × ℚ)
    (h : e ∈ jsEntries b) : e ∈ b := by
  rw [jsEntries] at h
  rcases List.mem_append.mp h with h1 | h1
  · exact List.mem_of_mem_filter ((sortAsc_perm _).mem_iff.mp h1)
  · exact List.mem_of_mem_filter h1

/-! ## Bucket invariants -/

theorem mem_bump (l : List (ℚ × ℚ)) (r p : ℚ) :
    ∀ e ∈ bump l r p, e.1 = r ∨ e ∈ l := by
  induction l with
  | nil =>
      intro e he
      simp only [bump, List.mem_singleton] at he
      left
      rw [he]
  | cons f fs ih =>
      obtain ⟨k, a⟩ := f
      intro e he
      rw [bump] at he
      by_cases hk : k = r
      · rw [if_pos hk] at he
        rcases List.mem_cons.mp he with rfl | h2
        · left
          exact hk
        · right
          exact List.mem_cons_of_mem _ h2
      · rw [if_neg hk] at he
        rcases List.mem_cons.mp he with rfl | h2
        · right
          exact List.mem_cons_self _ _
        · rcases ih e h2 with h3 | h3
          · left
            exact h3
          · right
            exact List.mem_cons_of_mem _ h3

theorem bump_keys_of_mem (l : List (ℚ × ℚ)) (r p : ℚ)
    (h : r ∈ l.map Prod.fst) :
    (bump l r p).map Prod.fst = l.map Prod.fst := by
  induction l with
  | nil => simp at h
  | cons f fs ih =>
      obtain ⟨k, a⟩ := f
      rw [bump]
      by_cases hk : k = r
      · rw [if_pos hk]
        simp [hk]
      · rw [if_neg hk]
        simp only [List.map_cons] at h ⊢
        rcases List.mem_cons.mp h with h2 | h2
        · exact absurd h2.symm hk
        · rw [ih h2]

theorem bump_keys_of_not_mem (l : List (ℚ × ℚ)) (r p : ℚ)
    (h : r ∉ l.map Prod.fst) :
    (bump l r p).map Prod.fst = l.map Prod.fst ++ [r] := by
  induction l with
  | nil => simp [bump]
  | cons f fs ih =>
      obtain ⟨k, a⟩ := f
      simp only [List.map_cons, List.mem_cons] at h
      push_neg at h
      rw [bump, if_neg (fun hk => h.1 hk.symm)]
      simp only [List.map_cons, List.cons_append]
      rw [ih h.2]

theorem bump_nodupkeys (l : List (ℚ × ℚ)) (r p : ℚ)
    (h : (l.map Prod.fst).Nodup) : ((bump l r p).map Prod.fst).Nodup := by
  by_cases hm : r ∈ l.map Prod.fst
  · rw [bump_keys_of_mem l r p hm]
    exact h
  · rw [bump_keys_of_not_mem l r p hm]
    simp [List.nodup_append, h, hm]

theorem bumpToken_preserve (Q : List (ℚ × ℚ) → Prop)
    (acc : List (String × List (ℚ × ℚ))) (t : String) (r p : ℚ)
    (hQbump : ∀ b, Q b → Q (bump b r p))
    (hQnil : Q (bump [] r p))
    (hP : ∀ tb ∈ acc, Q tb.2) :
    ∀ tb ∈ bumpToken acc t r p, Q tb.2 := by
  induction acc with
  | nil =>
      intro tb htb
      simp only [bumpToken, List.mem_singleton] at htb
      rw [htb]
      exact hQnil
  | cons f fs ih =>
      obtain ⟨tk, b⟩ := f
      intro tb htb
      rw [bumpToken] at htb
      by_cases hk : tk = t
      · rw [if_pos hk] at htb
        rcases List.mem_cons.mp htb with rfl | h2
        · exact hQbump b (hP (tk, b) (List.mem_cons_self _ _))
        · exact hP tb (List.mem_cons_of_mem _ h2)
      · rw [if_neg hk] at htb
        rcases List.mem_cons.mp htb with rfl | h2
        · exact hP (tk, b) (List.mem_cons_self _ _)
        · exact ih (fun x hx => hP x (List.mem_cons_of_mem _ hx)) tb h2

theorem ratioFold_invariant (Q : List (ℚ × ℚ) → Prop) (R : ℚ → Prop)
    (hQbump : ∀ b r p, R r → Q b → Q (bump b r p))
    (hQnil : ∀ r p, R r → Q (bump [] r p))
    (power : ℚ) (rcs : List RatioChange) :
    ∀ acc : List (String × List (ℚ × ℚ)),
    (∀ rc ∈ rcs, R rc.newRatio) → (∀ tb ∈ acc, Q tb.2) →
    ∀ tb ∈ rcs.foldl
      (fun acc2 rc => bumpToken acc2 rc.token rc.newRatio power) acc,
      Q tb.2 := by
  induction rcs with
  | nil =>
      intro acc _ hacc
      exact hacc
  | cons rc rcs ih =>
      intro acc hrcs hacc
      rw [List.foldl_cons]
      refine ih _ (fun x hx => hrcs x (List.mem_cons_of_mem _ hx)) ?_
      exact bumpToken_preserve Q acc rc.token rc.newRatio power
        (fun b => hQbump b _ _ (hrcs rc (List.mem_cons_self _ _)))
        (hQnil _ _ (hrcs rc (List.mem_cons_self _ _))) hacc

theorem tallyTokens_invariant (Q : List (ℚ × ℚ) → Prop) (R : ℚ → Prop)
    (hQbump : ∀ b r p, R r → Q b → Q (bump b r p))
    (hQnil : ∀ r p, R r → Q (bump [] r p))
    (votes : List Vote)
    (hR : ∀ v ∈ votes, ∀ rc ∈ v.ratioChanges, R rc.newRatio) :
    ∀ tb ∈ tallyTokens votes, Q tb.2 := by
  rw [tallyTokens]
  have haux : ∀ (ws : List Vote) (acc : List (String × List (ℚ × ℚ))),
      (∀ v ∈ ws, ∀ rc ∈ v.ratioChanges, R rc.newRatio) →
      (∀ tb ∈ acc, Q tb.2) →
      ∀ tb ∈ ws.foldl
        (fun acc vote =>
          vote.ratioChanges.foldl
            (fun acc2 rc => bumpToken acc2 rc.token rc.newRatio
              vote.votingPower) acc) acc,
        Q tb.2 := by
    intro ws
    induction ws with
    | nil =>
        intro acc _ hacc
        exact hacc
    | cons v vs ih =>
        intro acc hws hacc
        rw [List.foldl_cons]
        refine ih _ (fun x hx => hws x (List.mem_cons_of_mem _ hx)) ?_
        exact ratioFold_invariant Q R hQbump hQnil v.votingPower
          v.ratioChanges acc (hws v (List.mem_cons_self _ _)) hacc
  exact haux votes [] hR (by simp)

theorem lookupToken_mem (m : List (String × List (ℚ × ℚ))) (t : String)
    (b : List (ℚ × ℚ)) (h : lookupToken m t = some b) : (t, b) ∈ m := by
  induction m with
  | nil => exact Option.noConfusion h
  | cons f rest ih =>
      obtain ⟨tk, bb⟩ := f
      rw [lookupToken] at h
      by_cases hk : tk = t
      · rw [if_pos hk] at h
        obtain rfl := Option.some.inj h
        subst hk
        exact List.mem_cons_self _ _
      · rw [if_neg hk] at h
        exact List.mem_cons_of_mem _ (ih h)

theorem lookupResult_tallyResults (m : List (String × List (ℚ × ℚ)))
    (t : String) :
    lookupResult (tallyResults m) t =
      (lookupToken m t).map (fun b =>
        { winningRatio := (pickWinner (jsEntries b)).1
          winningVotingPower := (pickWinner (jsEntries b)).2
          totalOptions := b.length : TokenResult }) := by
  induction m with
  | nil => rfl
  | cons f rest ih =>
      obtain ⟨tk, b⟩ := f
      simp only [tallyResults, List.map_cons] at ih ⊢
      rw [lookupResult, lookupToken]
      by_cases hk : tk = t
      · rw [if_pos hk, if_pos hk]
        rfl
      · rw [if_neg hk, if_neg hk]
        exact ih

theorem mem_mapSet (m : List (String × Vote)) (k : String) (v : Vote) :
    ∀ p ∈ mapSet m k v, p ∈ m ∨ p = (k, v) := by
  induction m with
  | nil =>
      intro p hp
      simp only [mapSet, List.mem_singleton] at hp
      exact Or.inr hp
  | cons f rest ih =>
      obtain ⟨k1, v1⟩ := f
      intro p hp
      rw [mapSet] at hp
      by_cases hk : k1 = k
      · rw [if_pos hk] at hp
        rcases List.mem_cons.mp hp with rfl | h2
        · exact Or.inr rfl
        · exact Or.inl (List.mem_cons_of_mem _ h2)
      · rw [if_neg hk] at hp
        rcases List.mem_cons.mp hp with rfl | h2
        · exact Or.inl (List.mem_cons_self _ _)
        · rcases ih p h2 with h3 | h3
          · exact Or.inl (List.mem_cons_of_mem _ h3)
          · exact Or.inr h3

theorem voterMapStep_values_subset (m : List (String × Vote)) (vote : Vote) :
    ∀ p ∈ voterMapStep m vote, p ∈ m ∨ p = (vote.voterAccountId, vote) := by
  intro p hp
  rw [voterMapStep] at hp
  cases hm : mapGet m vote.voterAccountId with
  | none =>
      rw [hm] at hp
      exact mem_mapSet m _ vote p hp
  | some ex =>
      rw [hm] at hp
      have hp2 : p ∈ (if ex.timestamp < vote.timestamp then
          mapSet m vote.voterAccountId vote else m) := hp
      by_cases ht : ex.timestamp < vote.timestamp
      · rw [if_pos ht] at hp2
        exact mem_mapSet m _ vote p hp2
      · rw [if_neg ht] at hp2
        exact Or.inl hp2

theorem finalVotes_subset (votes : List Vote) :
    ∀ v ∈ finalVotes votes, v ∈ votes := by
  have haux : ∀ (ws : List Vote) (acc : List (String × Vote)),
      (∀ w ∈ ws, w ∈ votes) → (∀ p ∈ acc, p.2 ∈ votes) →
      ∀ p ∈ ws.foldl voterMapStep acc, p.2 ∈ votes := by
    intro ws
    induction ws with
    | nil =>
        intro acc _ hacc
        exact hacc
    | cons w ws2 ih =>
        intro acc hws hacc
        rw [List.foldl_cons]
        refine ih _ (fun x hx => hws x (List.mem_cons_of_mem _ hx)) ?_
        intro p hp
        rcases voterMapStep_values_subset acc w p hp with h1 | h2
        · exact hacc p h1
        · rw [h2]
          exact hws w (List.mem_cons_self _ _)
  intro v hv
  obtain ⟨p, hp, rfl⟩ := List.mem_map.mp hv
  exact haux votes [] (fun w hw => hw) (by simp) p hp

theorem parseIntQ_of_arrayIndex (q : ℚ) (h : isArrayIndexKey q = true) :
    parseIntQ q = q := by
  unfold isArrayIndexKey at h
  simp only [Bool.and_eq_true, beq_iff_eq, decide_eq_true_eq] at h
  obtain ⟨⟨hden, hpos⟩, hlt⟩ := h
  unfold parseIntQ
  have hq : (q.num : ℚ) = q := by
    have h2 := Rat.num_div_den q
    rw [hden] at h2
    simpa using h2
  rw [← hq, Int.floor_intCast]

/-- C4 (amended): for every vote set and every token with a recorded bucket
list: (i) when every bucket holds nonpositive (in particular zero)
accumulated power, the tally reports `winningRatio 0` and
`winningVotingPower 0` even when ratio `0` was never voted — the winner
loop starts from `winningRatio = 0, winningPower = 0` and replaces only on
strictly greater power; (ii) when the vote set's ratio values are integer
object keys (the schema also admits non-integer ratios, where `parseInt`
truncation and insertion-order key enumeration break the selection — see
the counterexample) and some bucket holds strictly positive power, the
tally selects the ratio with the greatest accumulated power and, on an
exact power tie, the numerically smallest ratio value —
deterministically. -/
theorem tally_winner_greatest_power_smallest_ratio (votes : List Vote)
    (token : String) (buckets : List (ℚ × ℚ))
    (hb : lookupToken (tallyTokens (finalVotes votes)) token = some buckets) :
    ∃ w : TokenResult,
      lookupResult (tallyVote votes).tokenResults token = some w ∧
      w.totalOptions = buckets.length ∧
      ((∀ e ∈ buckets, e.2 ≤ 0) →
        w.winningRatio = 0 ∧ w.winningVotingPower = 0) ∧
      ((∀ v ∈ votes, ∀ rc ∈ v.ratioChanges,
          isArrayIndexKey rc.newRatio = true) →
        (∃ e ∈ buckets, 0 < e.2) →
        (w.winningRatio, w.winningVotingPower) ∈ buckets ∧
        (∀ e ∈ buckets, e.2 ≤ w.winningVotingPower) ∧
        (∀ e ∈ buckets, e.2 = w.winningVotingPower →
          w.winningRatio ≤ e.1)) := by
  refine ⟨{ winningRatio := (pickWinner (jsEntries buckets)).1
            winningVotingPower := (pickWinner (jsEntries buckets)).2
            totalOptions := buckets.length }, ?_, rfl, ?_, ?_⟩
  · have hres : (tallyVote votes).tokenResults =
        tallyResults (tallyTokens (finalVotes votes)) := rfl
    rw [hres, lookupResult_tallyResults, hb]
    rfl
  · intro h0
    have hz : pickWinner (jsEntries buckets) = (0, 0) :=
      pickWinner_of_all_nonpos _
        (fun e he => h0 e (mem_jsEntries buckets e he))
    rw [hz]
    exact ⟨rfl, rfl⟩
  intro hint hpos
  have hfv : ∀ v ∈ finalVotes votes, ∀ rc ∈ v.ratioChanges,
      isArrayIndexKey rc.newRatio = true :=
    fun v hv => hint v (finalVotes_subset votes v hv)
  have hkeysInt : ∀ tb ∈ tallyTokens (finalVotes votes),
      ∀ e ∈ tb.2, isArrayIndexKey e.1 = true :=
    tallyTokens_invariant (fun b => ∀ e ∈ b, isArrayIndexKey e.1 = true)
      (fun r => isArrayIndexKey r = true)
      (fun b r p hr hb2 e he => by
        rcases mem_bump b r p e he with h1 | h1
        · rw [h1]
          exact hr
        · exact hb2 e h1)
      (fun r p hr e he => by
        rcases mem_bump [] r p e he with h1 | h1
        · rw [h1]
          exact hr
        · simp at h1)
      (finalVotes votes) hfv
  have hkeysNodup : ∀ tb ∈ tallyTokens (finalVotes votes),
      (tb.2.map Prod.fst).Nodup :=
    tallyTokens_invariant (fun b => (b.map Prod.fst).Nodup) (fun _ => True)
      (fun b r p _ => bump_nodupkeys b r p)
      (fun r p _ => by simp [bump])
      (finalVotes votes) (fun _ _ _ _ => trivial)
  have hmem := lookupToken_mem _ token buckets hb
  have hbInt : ∀ e ∈ buckets, isArrayIndexKey e.1 = true :=
    hkeysInt (token, buckets) hmem
  have hbNodup : (buckets.map Prod.fst).Nodup :=
    hkeysNodup (token, buckets) hmem
  have hf1 : buckets.filter (fun e => isArrayIndexKey e.1) = buckets :=
    List.filter_eq_self.mpr hbInt
  have hf2 : buckets.filter (fun e => !isArrayIndexKey e.1) = [] :=
    List.filter_eq_nil_iff.mpr (fun e he => by simp [hbInt e he])
  have hE : jsEntries buckets = sortAsc buckets := by
    rw [jsEntries, hf1, hf2, List.append_nil]
  set E := sortAsc buckets with hEdef
  have hperm : E.Perm buckets := sortAsc_perm buckets
  have hEInt : ∀ e ∈ E, isArrayIndexKey e.1 = true :=
    fun e he => hbInt e (hperm.mem_iff.mp he)
  have hENodup : (E.map Prod.fst).Nodup :=
    (hperm.map Prod.fst).nodup_iff.mpr hbNodup
  have hElt : List.Pairwise (fun a b : ℚ × ℚ => a.1 < b.1) E :=
    sorted_nodupkeys_lt E (sortAsc_sorted buckets) hENodup
  have hmaxeq : maxPow E = maxPow buckets := maxPow_perm E buckets hperm
  have hMpos : 0 < maxPow E := by
    obtain ⟨e, he, hep⟩ := hpos
    refine lt_of_lt_of_le hep ?_
    rw [hmaxeq]
    exact le_maxPow buckets e he
  have hpw : pickWinner E = champRec (0, 0) E :=
    pickWinner_eq_champRec E
      (fun e he => parseIntQ_of_arrayIndex e.1 (hEInt e he))
  obtain ⟨l1, e, l2, heq, hemax, hl1, hch⟩ :=
    champRec_eq_first_max E (0, 0) (le_refl 0) hMpos
  refine ⟨?_, ?_, ?_⟩
  · simp only [hE, hpw, hch]
    have heE : e ∈ E := by
      rw [heq]
      exact List.mem_append_right _ (List.mem_cons_self _ _)
    exact hperm.mem_iff.mp heE
  · intro x hx
    simp only [hE, hpw, hch]
    rw [hemax, hmaxeq]
    exact le_maxPow buckets x hx
  · intro x hx hxe
    simp only [hE, hpw, hch] at hxe ⊢
    have hxE : x ∈ E := hperm.mem_iff.mpr hx
    rw [heq] at hxE
    rcases List.mem_append.mp hxE with h1 | h1
    · have hcontr := hl1 x h1
      rw [hxe, hemax] at hcontr
      exact absurd hcontr (lt_irrefl _)
    · rcases List.mem_cons.mp h1 with rfl | h2
      · exact le_refl _
      · have hpair := hElt
        rw [heq] at hpair
        have h3 := (List.pairwise_append.mp hpair).2.1
        exact le_of_lt (List.rel_of_pairwise_cons h3 h2)

/-- C4 witness: two votes, `HBAR` buckets `{50: 500, 40: 300}` — the winner
facts evaluated at this concrete, integer-ratio, positive-power input. -/
theorem tally_winner_witness :
    ∃ w : TokenResult,
      lookupResult (tallyVote [exVoteA, exVoteB]).tokenResults ("HBAR") =
        some w ∧
      w.totalOptions = ([((50 : ℚ), (500 : ℚ)), (40, 300)]).length ∧
      ((∀ e ∈ [((50 : ℚ), (500 : ℚ)), (40, 300)], e.2 ≤ 0) →
        w.winningRatio = 0 ∧ w.winningVotingPower = 0) ∧
      ((∀ v ∈ [exVoteA, exVoteB], ∀ rc ∈ v.ratioChanges,
          isArrayIndexKey rc.newRatio = true) →
        (∃ e ∈ [((50 : ℚ), (500 : ℚ)), (40, 300)], 0 < e.2) →
        (w.winningRatio, w.winningVotingPower) ∈
          [((50 : ℚ), (500 : ℚ)), (40, 300)] ∧
        (∀ e ∈ [((50 : ℚ), (500 : ℚ)), (40, 300)],
          e.2 ≤ w.winningVotingPower) ∧
        (∀ e ∈ [((50 : ℚ), (500 : ℚ)), (40, 300)],
          e.2 = w.winningVotingPower → w.winningRatio ≤ e.1)) :=
  tally_winner_greatest_power_smallest_ratio [exVoteA, exVoteB] ("HBAR")
    [(50, 500), (40, 300)] (by decide)

/-- C4 counterexample, both failure modes of the original claim.  Zero
power: a token whose only voted ratio is 40, carried by a zero-power vote —
the tally reports winner ratio 0 (never voted) with power 0, not the
greatest-power voted ratio 40.  Non-integer ratios (legal under the
schema): ratios 50.5 and 40.5 with exactly equal accumulated power 300 —
the claim requires the numerically smaller 40.5 to win, but the tally
reports winner ratio 50, which is not even a voted ratio: non-integer
object keys enumerate in insertion order (after integer keys, not
ascending) and the stored winner is `parseInt` of the key. -/
theorem tally_winner_selection_counterexample :
    (lookupResult (tallyVote [exZeroVote]).tokenResults ("HBAR") =
        some ⟨0, 0, 1⟩ ∧
      lookupToken (tallyTokens (finalVotes [exZeroVote])) ("HBAR") =
        some [(40, 0)]) ∧
    (lookupResult (tallyVote [exFracA, exFracB]).tokenResults ("HBAR") =
        some ⟨50, 300, 2⟩ ∧
      lookupToken (tallyTokens (finalVotes [exFracA, exFracB])) ("HBAR") =
        some [(ratioHalfHigh, 300), (ratioHalfLow, 300)] ∧
      ratioHalfLow < ratioHalfHigh ∧
      (50 : ℚ) ≠ ratioHalfHigh ∧ (50 : ℚ) ≠ ratioHalfLow) := by
  refine ⟨⟨by decide, by decide⟩,
    by decide, by decide, by decide, by decide, by decide⟩
